import Mathlib

/-!
Shallow embedding of `main.py` from the `youtube-api-server` repository.

The program is a small HTTP façade with one helper class `YouTubeTools`
offering three operations: `get_video_data` (oEmbed metadata),
`get_video_captions` (caption text) and `get_video_timestamps`
(formatted timestamps), all built on top of `get_youtube_video_id`,
which extracts a video identifier from a YouTube URL via Python's
`urllib.parse.urlparse` / `parse_qs`.

We embed:
* the slice of `urllib.parse` the program exercises (`urlsplit` fields
  `hostname`, `path`, `query`; `parse_qs`; `urlencode`/`quote_plus`),
  over `List Char`;
* the three operations as pure functions parameterised by their external
  collaborators (the transcript source `YouTubeTranscriptApi.get_transcript`
  and the oEmbed HTTP fetch), returning the HTTP-level outcome paired with
  the log of outbound calls, so that "no network call is made" is a
  provable statement.

Unicode-specific behaviour of CPython (UTF-8 re-decoding of `%XX` byte
sequences ≥ 0x80, IDNA hosts) is outside the scope of every claim and the
model decodes escapes bytewise; the control-character stripping that newer
CPython versions apply before parsing is likewise omitted.
-/

namespace YT

/-- Split a character list at the first occurrence of `sep`: the part before
it, and `some` of the part after it (`none` when `sep` does not occur).
Models Python `str.split(sep, 1)` (and `str.partition`). -/
def splitOnFirst (sep : Char) : List Char → List Char × Option (List Char)
  | [] => ([], none)
  | c :: cs =>
    if c = sep then ([], some cs)
    else
      let r := splitOnFirst sep cs
      (c :: r.1, r.2)

/-- Python `str.split(sep)` (single-character separator, no maxsplit):
splits at every occurrence of `sep`, producing one more part than there
are separators. -/
def splitAll (sep : Char) : List Char → List (List Char)
  | [] => [[]]
  | c :: cs =>
    match splitAll sep cs with
    | [] => [[]]
    | part :: parts => if c = sep then [] :: part :: parts else (c :: part) :: parts

/-- Characters CPython allows in a URL scheme after the initial letter
(`scheme_chars` in `urllib.parse`). -/
def isSchemeChar (c : Char) : Bool :=
  c.isAlpha || c.isDigit || c = '+' || c = '-' || c = '.'

/-- The scheme-recognition step of `urlsplit`: when the text before the
first `:` is non-empty, starts with a letter and consists of scheme
characters, it is the (lowercased) scheme and parsing continues after the
colon; otherwise the URL has no scheme. -/
def splitScheme (cs : List Char) : Option (List Char) × List Char :=
  match splitOnFirst ':' cs with
  | (c0 :: pre, some rest) =>
    if c0.isAlpha && (c0 :: pre).all isSchemeChar then
      (some ((c0 :: pre).map Char.toLower), rest)
    else (none, cs)
  | _ => (none, cs)

/-- A character ending the netloc in `_splitnetloc`. -/
def isNetlocEnd (c : Char) : Bool := c = '/' || c = '?' || c = '#'

/-- `_splitnetloc`: when the remainder (after the scheme) starts with `//`,
the netloc runs up to the first `/`, `?` or `#`. -/
def splitNetloc : List Char → List Char × List Char
  | '/' :: '/' :: rest =>
    (rest.takeWhile (fun c => !isNetlocEnd c), rest.dropWhile (fun c => !isNetlocEnd c))
  | cs => ([], cs)

/-- The result of `urllib.parse.urlsplit`, restricted to the components the
program reads. -/
structure UrlParts where
  scheme : Option (List Char)
  netloc : List Char
  path : List Char
  query : List Char
  fragment : List Char
deriving Repr, DecidableEq

/-- `urllib.parse.urlsplit` (which `urlparse` delegates to; the program never
looks at params, so the extra `_splitparams` step of `urlparse` is inert):
recognise the scheme, then the `//netloc`, then cut the fragment at the
first `#` and the query at the first `?`. -/
def urlsplit (url : List Char) : UrlParts :=
  let s := splitScheme url
  let n := splitNetloc s.2
  let f := splitOnFirst '#' n.2
  let q := splitOnFirst '?' f.1
  { scheme := s.1, netloc := n.1, path := q.1,
    query := (q.2).getD [], fragment := (f.2).getD [] }

/-- The `hostname` property of a split result: the netloc after the last
`@`; if a `[` occurs, the part of the first bracket's content before `]`,
otherwise the part before the first `:` (the port separator); lowercased;
`none` when empty.  (CPython's `ValueError` on malformed bracketing is not
modelled; no claim involves bracketed hosts.) -/
def hostnameOf (netloc : List Char) : Option (List Char) :=
  let hostinfo := ((splitOnFirst '@' netloc.reverse).1).reverse
  let host :=
    match splitOnFirst '[' hostinfo with
    | (_, some bracketed) => (splitOnFirst ']' bracketed).1
    | (_, none) => (splitOnFirst ':' hostinfo).1
  if host = [] then none else some (host.map Char.toLower)

/-- One hexadecimal digit, as for `%XX` escapes in `urllib.parse.unquote`. -/
def hexDigit? (c : Char) : Option Nat :=
  if '0' ≤ c ∧ c ≤ '9' then some (c.toNat - '0'.toNat)
  else if 'a' ≤ c ∧ c ≤ 'f' then some (c.toNat - 'a'.toNat + 10)
  else if 'A' ≤ c ∧ c ≤ 'F' then some (c.toNat - 'A'.toNat + 10)
  else none

/-- Percent-decoding as in `urllib.parse.unquote`, bytewise: a `%` followed
by two hex digits becomes the character with that code; an invalid escape
passes the `%` through and decoding continues after it. -/
def percentDecode : List Char → List Char
  | [] => []
  | '%' :: a :: b :: rest =>
    (match hexDigit? a, hexDigit? b with
     | some x, some y => Char.ofNat (16 * x + y) :: percentDecode rest
     | _, _ => '%' :: percentDecode (a :: b :: rest))
  | c :: rest => c :: percentDecode rest

/-- `urllib.parse.unquote_plus`: replace `+` by a space, then percent-decode. -/
def unquote_plus (cs : List Char) : List Char :=
  percentDecode (cs.map fun c => if c = '+' then ' ' else c)

/-- `urllib.parse.parse_qsl` with default arguments: split the query on `&`;
drop empty fragments, fields without `=` and fields with an empty value
(`keep_blank_values=False`); `unquote_plus` both name and value. -/
def parse_qsl (qs : List Char) : List (List Char × List Char) :=
  (splitAll '&' qs).filterMap fun nv =>
    if nv = [] then none
    else
      match splitOnFirst '=' nv with
      | (_, none) => none
      | (name, some value) =>
        if value = [] then none
        else some (unquote_plus name, unquote_plus value)

/-- `parse_qs(qs).get(key, [None])[0]`: the first value bound to `key` in
the parsed query, `none` when the key is absent.  (`parse_qs` groups
`parse_qsl`'s pairs by key preserving order, so the first element of the
group is the first pair with that key.) -/
def qsFirst (qs : List Char) (key : List Char) : Option (List Char) :=
  ((parse_qsl qs).find? fun p => p.1 == key).map fun p => p.2

/-- `YouTubeTools.get_youtube_video_id`, over character lists.  Mirrors the
source: `youtu.be` hosts return the path without its leading character;
`(www.)youtube.com` hosts return the `v` query parameter for path `/watch`,
or the third `/`-separated path token for paths starting `/embed/` or
`/v/`; everything else returns `None`.  (For the two `startswith` branches
index 2 always exists, so the total `getD 2 []` agrees with Python's
partial `[2]`.) -/
def getVideoIdL (url : List Char) : Option (List Char) :=
  let parsed := urlsplit url
  match hostnameOf parsed.netloc with
  | none => none
  | some hostname =>
    if hostname = "youtu.be".toList then some (parsed.path.drop 1)
    else if hostname = "www.youtube.com".toList ∨ hostname = "youtube.com".toList then
      if parsed.path = "/watch".toList then qsFirst parsed.query "v".toList
      else if List.isPrefixOf "/embed/".toList parsed.path then
        some ((splitAll '/' parsed.path).getD 2 [])
      else if List.isPrefixOf "/v/".toList parsed.path then
        some ((splitAll '/' parsed.path).getD 2 [])
      else none
    else none

/-- `YouTubeTools.get_youtube_video_id`. -/
def get_youtube_video_id (url : String) : Option String :=
  (getVideoIdL url.toList).map List.asString

/-- `fastapi.HTTPException`, restricted to the two fields the program sets. -/
structure HTTPError where
  status_code : Nat
  detail : String
deriving Repr, DecidableEq

deriving instance DecidableEq for Except

/-- One caption line as returned by the transcript source: a record with a
`start` offset in (possibly fractional) seconds, modelled as a rational,
and a `text`. -/
structure CaptionLine where
  start : Rat
  text : String
deriving Repr, DecidableEq

/-- The transcript collaborator `YouTubeTranscriptApi.get_transcript`: called
with the video id and either an explicit `languages` list (`some`) or no
`languages` argument at all (`none`, leaving the library's own default
selection policy in force); it returns caption lines or raises, modelled as
`Except` with the exception's message (`str(e)`). -/
abbrev TranscriptSource := String → Option (List String) → Except String (List CaptionLine)

/-- One recorded outbound call to the transcript source: the video id and
the language argument passed (`none` = argument omitted). -/
abbrev TranscriptCall := String × Option (List String)

/-- `YouTubeTools.get_video_captions`, parameterised by the transcript
source; returns the HTTP-level outcome paired with the ordered log of
outbound transcript calls.  Python truthiness is made explicit: `if not
url` is `url = ""`; `if not video_id` also rejects an empty extracted id;
`if languages:` is false for both `None` and `[]`.  The `HTTPException`
raised inside the first `try` block is itself caught by that block's
`except Exception`, so every invalid URL (empty id included) surfaces with
detail "Error getting video ID from URL". -/
def get_video_captions (api : TranscriptSource) (url : String)
    (languages : Option (List String)) :
    Except HTTPError String × List TranscriptCall :=
  if url = "" then (.error ⟨400, "No URL provided"⟩, [])
  else
    match get_youtube_video_id url with
    | none => (.error ⟨400, "Error getting video ID from URL"⟩, [])
    | some video_id =>
      if video_id = "" then (.error ⟨400, "Error getting video ID from URL"⟩, [])
      else
        let langArg : Option (List String) :=
          match languages with
          | some (l :: ls) => some (l :: ls)
          | _ => none
        match api video_id langArg with
        | .error e =>
          (.error ⟨500, "Error getting captions for video: " ++ e⟩, [(video_id, langArg)])
        | .ok captions =>
          if captions = [] then (.ok "No captions found for video", [(video_id, langArg)])
          else
            (.ok (String.intercalate " " (captions.map fun line => line.text)),
             [(video_id, langArg)])

/-- Python `int(..)` applied to the rational `start` offset: truncation
toward zero. -/
def pyInt (q : Rat) : Int := q.num.tdiv (q.den : Int)

/-- Python `f"{n:02d}"` for the values produced as `divmod(_, 60)`
remainders (always in `[0, 60)`): zero-pad to two digits. -/
def pad2 (n : Int) : String :=
  if 0 ≤ n ∧ n < 10 then "0" ++ toString n else toString n

/-- The loop body of `get_video_timestamps`:
`minutes, seconds = divmod(int(line["start"]), 60)` (floor divmod) rendered
as `f"{minutes}:{seconds:02d} - {line['text']}"`. -/
def formatLine (line : CaptionLine) : String :=
  let start := pyInt line.start
  let minutes := start.fdiv 60
  let seconds := start.fmod 60
  toString minutes ++ ":" ++ pad2 seconds ++ " - " ++ line.text

/-- `YouTubeTools.get_video_timestamps`, parameterised like
`get_video_captions`.  Python `languages or ["en"]` treats `None` and `[]`
as falsy, so the transcript source is always called with an explicit
non-empty language list here. -/
def get_video_timestamps (api : TranscriptSource) (url : String)
    (languages : Option (List String)) :
    Except HTTPError (List String) × List TranscriptCall :=
  if url = "" then (.error ⟨400, "No URL provided"⟩, [])
  else
    match get_youtube_video_id url with
    | none => (.error ⟨400, "Error getting video ID from URL"⟩, [])
    | some video_id =>
      if video_id = "" then (.error ⟨400, "Error getting video ID from URL"⟩, [])
      else
        let langArg : List String :=
          match languages with
          | some (l :: ls) => l :: ls
          | _ => ["en"]
        match api video_id (some langArg) with
        | .error e =>
          (.error ⟨500, "Error generating timestamps: " ++ e⟩, [(video_id, some langArg)])
        | .ok captions => (.ok (captions.map formatLine), [(video_id, some langArg)])

/-- A JSON value of the oEmbed response; the ten projected fields are
strings and integers. -/
inductive JVal where
  | str : String → JVal
  | int : Int → JVal
deriving Repr, DecidableEq

/-- A parsed JSON object (`json.loads` result).  Keys of a Python dict are
unique, so an association list with first-match lookup models `dict.get`. -/
abbrev JObj := List (String × JVal)

/-- Python `video_data.get(k)`: `None` when the key is absent. -/
def jget (obj : JObj) (k : String) : Option JVal := obj.lookup k

/-- The upper-case hexadecimal digit for `n < 16`, as used by
`urllib.parse.quote`. -/
def hexUpper (n : Nat) : Char :=
  if n < 10 then Char.ofNat ('0'.toNat + n) else Char.ofNat ('A'.toNat + n - 10)

/-- `urllib.parse.quote_plus` with `safe=''` on one ASCII character:
alphanumerics and `_.-~` are kept, a space becomes `+`, anything else is
`%XX` with upper-case hex.  (Non-ASCII text would first be UTF-8 encoded;
the program only quotes ASCII.) -/
def quoteChar (c : Char) : List Char :=
  if c.isAlpha || c.isDigit || c = '_' || c = '.' || c = '-' || c = '~' then [c]
  else if c = ' ' then ['+']
  else ['%', hexUpper (c.toNat / 16 % 16), hexUpper (c.toNat % 16)]

/-- `urllib.parse.quote_plus` with `safe=''`. -/
def quote_plus (s : String) : String := ((s.toList.map quoteChar).flatten).asString

/-- `urllib.parse.urlencode` with default `quote_via=quote_plus`, applied to
the two-parameter dict the program builds. -/
def urlencode (params : List (String × String)) : String :=
  String.intercalate "&" (params.map fun p => quote_plus p.1 ++ "=" ++ quote_plus p.2)

/-- `YouTubeTools.get_video_data`, parameterised by the oEmbed HTTP+JSON
collaborator (`urlopen` + `json.loads`): given the full request URL it
returns the decoded JSON object or raises, modelled as `Except` with the
exception message.  The result pairs the HTTP-level outcome with the log
of outbound request URLs.  The `clean_data` dict is modelled as the
ordered ten-entry association list built with `dict.get`. -/
def get_video_data (oembed : String → Except String JObj) (url : String) :
    Except HTTPError (List (String × Option JVal)) × List String :=
  if url = "" then (.error ⟨400, "No URL provided"⟩, [])
  else
    match get_youtube_video_id url with
    | none => (.error ⟨400, "Error getting video ID from URL"⟩, [])
    | some video_id =>
      if video_id = "" then (.error ⟨400, "Error getting video ID from URL"⟩, [])
      else
        let params := [("format", "json"),
                       ("url", "https://www.youtube.com/watch?v=" ++ video_id)]
        let full_url := "https://www.youtube.com/oembed" ++ "?" ++ urlencode params
        match oembed full_url with
        | .error e => (.error ⟨500, "Error getting video data: " ++ e⟩, [full_url])
        | .ok video_data =>
          (.ok [("title", jget video_data "title"),
                ("author_name", jget video_data "author_name"),
                ("author_url", jget video_data "author_url"),
                ("type", jget video_data "type"),
                ("height", jget video_data "height"),
                ("width", jget video_data "width"),
                ("version", jget video_data "version"),
                ("provider_name", jget video_data "provider_name"),
                ("provider_url", jget video_data "provider_url"),
                ("thumbnail_url", jget video_data "thumbnail_url")],
           [full_url])

/-- The characters of a well-formed YouTube video identifier: ASCII
alphanumerics, `-` and `_`. -/
def goodIdChar (c : Char) : Bool := c.isAlpha || c.isDigit || c = '-' || c = '_'

/-- A well-formed video identifier: non-empty and over `goodIdChar`. -/
def goodId (s : String) : Prop := s ≠ "" ∧ ∀ c ∈ s.toList, goodIdChar c = true

/-- Renders `[(k1,v1), (k2,v2), ...]` as the query string `k1=v1&k2=v2&...`
(statement side of the `/watch` query-parameter claim). -/
def joinPairs : List (List Char × List Char) → List Char
  | [] => []
  | [p] => p.1 ++ '=' :: p.2
  | p :: ps => p.1 ++ '=' :: p.2 ++ '&' :: joinPairs ps

/-- A rendered pair whose round-trip through `parse_qsl` is the identity:
key and value over identifier characters, value non-empty. -/
abbrev goodPair (p : List Char × List Char) : Prop :=
  (∀ c ∈ p.1, goodIdChar c = true) ∧ p.2 ≠ [] ∧ (∀ c ∈ p.2, goodIdChar c = true)

/-! ### Lemmas about the character-list utilities -/

theorem toList_append (s t : String) : (s ++ t).toList = s.toList ++ t.toList := by
  cases s; cases t; rfl

theorem splitOnFirst_not_mem {sep : Char} : ∀ {l : List Char}, sep ∉ l →
    splitOnFirst sep l = (l, none)
  | [], _ => rfl
  | c :: cs, h => by
    simp only [List.mem_cons, not_or] at h
    have hc : ¬ c = sep := fun hc => h.1 hc.symm
    simp [splitOnFirst, hc, splitOnFirst_not_mem h.2]

theorem splitOnFirst_append {sep : Char} {s : List Char} : ∀ {p : List Char}, sep ∉ p →
    splitOnFirst sep (p ++ sep :: s) = (p, some s)
  | [], _ => by simp [splitOnFirst]
  | c :: cs, h => by
    simp only [List.mem_cons, not_or] at h
    have hc : ¬ c = sep := fun hc => h.1 hc.symm
    simp [splitOnFirst, hc, splitOnFirst_append h.2]

theorem splitOnFirst_cons_ne {sep c : Char} (l : List Char) (h : ¬ c = sep) :
    splitOnFirst sep (c :: l) =
      ((c :: (splitOnFirst sep l).1, (splitOnFirst sep l).2)) := by
  simp [splitOnFirst, h]

theorem takeWhile_middle {p : Char → Bool} {c : Char} {suf : List Char}
    (h2 : p c = false) : ∀ {pre : List Char}, (∀ a ∈ pre, p a = true) →
    (pre ++ c :: suf).takeWhile p = pre
  | [], _ => by simp [List.takeWhile, h2]
  | a :: as, h1 => by
    have ha : p a = true := h1 a (List.mem_cons_self a as)
    simp only [List.cons_append, List.takeWhile_cons, ha]
    simp [takeWhile_middle h2 (fun x hx => h1 x (List.mem_cons_of_mem a hx))]

theorem dropWhile_middle {p : Char → Bool} {c : Char} {suf : List Char}
    (h2 : p c = false) : ∀ {pre : List Char}, (∀ a ∈ pre, p a = true) →
    (pre ++ c :: suf).dropWhile p = c :: suf
  | [], _ => by simp [List.dropWhile, h2]
  | a :: as, h1 => by
    have ha : p a = true := h1 a (List.mem_cons_self a as)
    simp only [List.cons_append, List.dropWhile_cons, ha]
    simp [dropWhile_middle h2 (fun x hx => h1 x (List.mem_cons_of_mem a hx))]

theorem splitAll_ne_nil (sep : Char) (l : List Char) : splitAll sep l ≠ [] := by
  cases l with
  | nil => simp [splitAll]
  | cons c cs =>
    simp only [splitAll]
    cases splitAll sep cs with
    | nil => simp
    | cons part parts =>
      by_cases hc : c = sep <;> simp [hc]

theorem splitAll_not_mem {sep : Char} : ∀ {l : List Char}, sep ∉ l →
    splitAll sep l = [l]
  | [], _ => rfl
  | c :: cs, h => by
    simp only [List.mem_cons, not_or] at h
    have hc : ¬ c = sep := fun hc => h.1 hc.symm
    simp [splitAll, splitAll_not_mem h.2, hc]

theorem splitAll_append {sep : Char} {s : List Char} : ∀ {p : List Char}, sep ∉ p →
    splitAll sep (p ++ sep :: s) = p :: splitAll sep s
  | [], _ => by
    simp only [List.nil_append, splitAll]
    cases h : splitAll sep s with
    | nil => exact absurd h (splitAll_ne_nil sep s)
    | cons part parts => simp
  | c :: cs, h => by
    simp only [List.mem_cons, not_or] at h
    have hc : ¬ c = sep := fun hc => h.1 hc.symm
    simp only [List.cons_append, splitAll, List.append_eq]
    rw [splitAll_append h.2]
    simp [hc]

theorem percentDecode_cons_ne {c : Char} (hc : ¬ c = '%') :
    ∀ l, percentDecode (c :: l) = c :: percentDecode l := by
  intro l
  cases l with
  | nil => simp [percentDecode, hc]
  | cons a as =>
    cases as with
    | nil => simp [percentDecode, hc]
    | cons b bs => simp [percentDecode, hc]

theorem percentDecode_id : ∀ {l : List Char}, '%' ∉ l → percentDecode l = l
  | [], _ => rfl
  | c :: cs, h => by
    simp only [List.mem_cons, not_or] at h
    have hc : ¬ c = '%' := fun hc => h.1 hc.symm
    rw [percentDecode_cons_ne hc, percentDecode_id h.2]

theorem map_plus_id : ∀ {l : List Char}, '+' ∉ l →
    (l.map fun c => if c = '+' then ' ' else c) = l
  | [], _ => rfl
  | c :: cs, h => by
    simp only [List.mem_cons, not_or] at h
    have hc : ¬ c = '+' := fun hc => h.1 hc.symm
    simp [hc, map_plus_id h.2]

theorem unquote_plus_id {l : List Char} (h1 : '%' ∉ l) (h2 : '+' ∉ l) :
    unquote_plus l = l := by
  rw [unquote_plus, map_plus_id h2, percentDecode_id h1]

/-! ### Computing `urlsplit` on the URL shapes of the spec -/

theorem splitScheme_https (r : List Char) :
    splitScheme (['h', 't', 't', 'p', 's'] ++ ':' :: r) = (some ['h', 't', 't', 'p', 's'], r) := by
  simp only [splitScheme]
  rw [splitOnFirst_append (by decide)]
  rfl

/-- `urlsplit` on `https://<host>/<tail>`: the netloc is `host` (whose
characters must not end a netloc), the fragment is empty when `tail` has no
`#`, and the path/query are `/`-prefixed `tail` cut at its first `?`. -/
theorem urlsplit_https (host tail : List Char)
    (hhost : ∀ c ∈ host, isNetlocEnd c = false)
    (htail : '#' ∉ tail) :
    urlsplit ("https://".toList ++ host ++ '/' :: tail) =
      { scheme := some "https".toList, netloc := host,
        path := '/' :: (splitOnFirst '?' tail).1,
        query := ((splitOnFirst '?' tail).2).getD [],
        fragment := [] } := by
  have e1 : "https://".toList ++ host ++ '/' :: tail =
      ['h', 't', 't', 'p', 's'] ++ ':' :: ('/' :: '/' :: (host ++ '/' :: tail)) := rfl
  have hfrag : '#' ∉ ('/' :: tail) := by
    intro hm
    rcases List.mem_cons.mp hm with h | h
    · exact absurd h (by decide)
    · exact htail h
  simp only [urlsplit, e1, splitScheme_https, splitNetloc]
  rw [takeWhile_middle (by decide) (fun a ha => by simp [hhost a ha]),
    dropWhile_middle (by decide) (fun a ha => by simp [hhost a ha]),
    splitOnFirst_not_mem hfrag,
    splitOnFirst_cons_ne tail (by decide)]
  rfl

theorem good_not_mem {l : List Char} (h : ∀ c ∈ l, goodIdChar c = true) {d : Char}
    (hd : goodIdChar d = false) : d ∉ l := fun hm => by
  have hc := h d hm
  rw [hd] at hc
  exact Bool.false_ne_true hc

theorem getVideoIdL_youtu_be (p : List Char) (h1 : '#' ∉ p) (h2 : '?' ∉ p) :
    getVideoIdL ("https://".toList ++ "youtu.be".toList ++ '/' :: p) = some p := by
  simp only [getVideoIdL]
  rw [urlsplit_https "youtu.be".toList p (by decide) h1]
  rw [splitOnFirst_not_mem h2]
  simp only []
  rw [show hostnameOf "youtu.be".toList = some "youtu.be".toList from by decide]
  simp

theorem qsFirst_v (id : List Char) (hne : id ≠ []) (hgood : ∀ c ∈ id, goodIdChar c = true) :
    qsFirst ('v' :: '=' :: id) "v".toList = some id := by
  have hamp : '&' ∉ ('v' :: '=' :: id) := by
    intro hm
    rcases List.mem_cons.mp hm with h | hm
    · exact absurd h (by decide)
    rcases List.mem_cons.mp hm with h | hm
    · exact absurd h (by decide)
    · exact good_not_mem hgood (by decide) hm
  have e : ('v' :: '=' :: id) = ['v'] ++ '=' :: id := rfl
  simp only [qsFirst, parse_qsl, splitAll_not_mem hamp, List.filterMap]
  rw [e, splitOnFirst_append (by decide)]
  simp only [hne, if_neg, List.cons_ne_nil, if_false]
  rw [unquote_plus_id (good_not_mem hgood (by decide)) (good_not_mem hgood (by decide))]
  simp [unquote_plus, percentDecode, hne]

theorem isPrefixOf_append (p s : List Char) : List.isPrefixOf p (p ++ s) = true := by
  induction p with
  | nil => simp [List.isPrefixOf]
  | cons a as ih => simp [List.isPrefixOf, ih]

theorem getVideoIdL_watch (host q : List Char)
    (hh : hostnameOf host = some "www.youtube.com".toList ∨
          hostnameOf host = some "youtube.com".toList)
    (hchars : ∀ c ∈ host, isNetlocEnd c = false)
    (hq : '#' ∉ q) :
    getVideoIdL ("https://".toList ++ host ++ '/' :: ("watch".toList ++ '?' :: q)) =
      qsFirst q "v".toList := by
  have htail : '#' ∉ ("watch".toList ++ '?' :: q) := by
    intro hm
    rcases List.mem_append.mp hm with h | h
    · exact absurd h (by decide)
    rcases List.mem_cons.mp h with h | h
    · exact absurd h (by decide)
    · exact hq h
  simp only [getVideoIdL]
  rw [urlsplit_https host _ hchars htail, splitOnFirst_append (by decide)]
  rcases hh with hh | hh <;>
  · simp only [hh]
    rw [if_neg (by decide), if_pos (by decide), if_pos (by decide)]
    rfl

theorem getVideoIdL_embed (host id : List Char)
    (hh : hostnameOf host = some "www.youtube.com".toList ∨
          hostnameOf host = some "youtube.com".toList)
    (hchars : ∀ c ∈ host, isNetlocEnd c = false)
    (hgood : ∀ c ∈ id, goodIdChar c = true) :
    getVideoIdL ("https://".toList ++ host ++ '/' :: ("embed/".toList ++ id)) = some id := by
  have htail : '#' ∉ ("embed/".toList ++ id) := by
    intro hm
    rcases List.mem_append.mp hm with h | h
    · exact absurd h (by decide)
    · exact good_not_mem hgood (by decide) h
  have hquery : '?' ∉ ("embed/".toList ++ id) := by
    intro hm
    rcases List.mem_append.mp hm with h | h
    · exact absurd h (by decide)
    · exact good_not_mem hgood (by decide) h
  have hslash : '/' ∉ id := good_not_mem hgood (by decide)
  simp only [getVideoIdL]
  rw [urlsplit_https host _ hchars htail, splitOnFirst_not_mem hquery]
  have epath : '/' :: ("embed/".toList ++ id) = '/' :: 'e' :: 'm' :: 'b' :: 'e' :: 'd' :: '/' :: id := rfl
  have hnw : ¬ ('/' :: ("embed/".toList ++ id) = "/watch".toList) := by
    intro hEq
    have hEq' : ('/' :: 'e' :: 'm' :: 'b' :: 'e' :: 'd' :: '/' :: id) =
        ('/' :: 'w' :: 'a' :: 't' :: 'c' :: 'h' :: ([] : List Char)) := hEq
    injection hEq' with _ h2
    injection h2 with h3 _
    exact absurd h3 (by decide)
  have hsplit : splitAll '/' ('/' :: ("embed/".toList ++ id)) = [[], "embed".toList, id] := by
    have e0 : '/' :: ("embed/".toList ++ id) = [] ++ '/' :: ("embed".toList ++ '/' :: id) := rfl
    rw [e0, splitAll_append (by decide), splitAll_append (by decide), splitAll_not_mem hslash]
  have hpre : List.isPrefixOf "/embed/".toList ('/' :: ("embed/".toList ++ id)) = true := by
    have e2 : '/' :: ("embed/".toList ++ id) = "/embed/".toList ++ id := rfl
    rw [e2]
    exact isPrefixOf_append _ id
  rcases hh with hh | hh <;>
  · simp only [hh]
    rw [if_neg (by decide), if_pos (by decide), if_neg hnw, if_pos hpre, hsplit]
    rfl

theorem getVideoIdL_v (host id : List Char)
    (hh : hostnameOf host = some "www.youtube.com".toList ∨
          hostnameOf host = some "youtube.com".toList)
    (hchars : ∀ c ∈ host, isNetlocEnd c = false)
    (hgood : ∀ c ∈ id, goodIdChar c = true) :
    getVideoIdL ("https://".toList ++ host ++ '/' :: ("v/".toList ++ id)) = some id := by
  have htail : '#' ∉ ("v/".toList ++ id) := by
    intro hm
    rcases List.mem_append.mp hm with h | h
    · exact absurd h (by decide)
    · exact good_not_mem hgood (by decide) h
  have hquery : '?' ∉ ("v/".toList ++ id) := by
    intro hm
    rcases List.mem_append.mp hm with h | h
    · exact absurd h (by decide)
    · exact good_not_mem hgood (by decide) h
  have hslash : '/' ∉ id := good_not_mem hgood (by decide)
  simp only [getVideoIdL]
  rw [urlsplit_https host _ hchars htail, splitOnFirst_not_mem hquery]
  have hnw : ¬ ('/' :: ("v/".toList ++ id) = "/watch".toList) := by
    intro hEq
    have hEq' : ('/' :: 'v' :: '/' :: id) =
        ('/' :: 'w' :: 'a' :: 't' :: 'c' :: 'h' :: ([] : List Char)) := hEq
    injection hEq' with _ h2
    injection h2 with h3 _
    exact absurd h3 (by decide)
  have hne : List.isPrefixOf "/embed/".toList ('/' :: ("v/".toList ++ id)) = false := by
    show List.isPrefixOf ('/' :: 'e' :: 'm' :: 'b' :: 'e' :: 'd' :: '/' :: []) ('/' :: 'v' :: '/' :: id) = false
    simp [List.isPrefixOf, (by decide : ('e' == 'v') = false)]
  have hpre : List.isPrefixOf "/v/".toList ('/' :: ("v/".toList ++ id)) = true := by
    have e2 : '/' :: ("v/".toList ++ id) = "/v/".toList ++ id := rfl
    rw [e2]
    exact isPrefixOf_append _ id
  have hsplit : splitAll '/' ('/' :: ("v/".toList ++ id)) = [[], "v".toList, id] := by
    have e0 : '/' :: ("v/".toList ++ id) = [] ++ '/' :: ("v".toList ++ '/' :: id) := rfl
    rw [e0, splitAll_append (by decide), splitAll_append (by decide), splitAll_not_mem hslash]
  rcases hh with hh | hh <;>
  · simp only [hh]
    rw [if_neg (by decide), if_pos (by decide), if_neg hnw, if_neg (by rw [hne]; exact Bool.false_ne_true),
      if_pos hpre, hsplit]
    rfl

theorem toList_ne_nil {s : String} (h : s ≠ "") : s.toList ≠ [] := fun he =>
  h (by rw [← String.asString_toList s, he]; rfl)

/-! ### Round-tripping a rendered query string through `parse_qsl` -/

theorem not_mem_pair {k v : List Char} {d : Char} (hd : goodIdChar d = false)
    (hk : ∀ c ∈ k, goodIdChar c = true) (hv : ∀ c ∈ v, goodIdChar c = true)
    (hne : ¬ d = '=') : d ∉ (k ++ '=' :: v) := by
  intro hm
  rcases List.mem_append.mp hm with h | h
  · exact good_not_mem hk hd h
  rcases List.mem_cons.mp h with h | h
  · exact hne h
  · exact good_not_mem hv hd h

theorem parse_qsl_pair {k v : List Char} (hk : ∀ c ∈ k, goodIdChar c = true)
    (hv : ∀ c ∈ v, goodIdChar c = true) (hvne : v ≠ []) :
    (if (k ++ '=' :: v) = [] then none
     else match splitOnFirst '=' (k ++ '=' :: v) with
       | (_, none) => none
       | (name, some value) =>
         if value = [] then none
         else some (unquote_plus name, unquote_plus value)) = some (k, v) := by
  rw [if_neg (by simp), splitOnFirst_append (good_not_mem hk (by decide))]
  simp only [if_neg hvne]
  rw [unquote_plus_id (good_not_mem hk (by decide)) (good_not_mem hk (by decide)),
    unquote_plus_id (good_not_mem hv (by decide)) (good_not_mem hv (by decide))]

theorem parse_qsl_joinPairs : ∀ {ps : List (List Char × List Char)},
    (∀ p ∈ ps, goodPair p) → parse_qsl (joinPairs ps) = ps
  | [], _ => by decide
  | [(k, v)], h => by
    obtain ⟨hk, hvne, hv⟩ := h (k, v) (List.mem_singleton.mpr rfl)
    have hamp : '&' ∉ (k ++ '=' :: v) := not_mem_pair (by decide) hk hv (by decide)
    simp only [joinPairs, parse_qsl, splitAll_not_mem hamp, List.filterMap]
    rw [parse_qsl_pair hk hv hvne]
  | (k, v) :: q :: ps, h => by
    obtain ⟨hk, hvne, hv⟩ := h (k, v) (List.mem_cons_self _ _)
    have htail : ∀ p ∈ q :: ps, goodPair p := fun p hp => h p (List.mem_cons_of_mem _ hp)
    have hamp : '&' ∉ (k ++ '=' :: v) := not_mem_pair (by decide) hk hv (by decide)
    have e : joinPairs ((k, v) :: q :: ps) =
        (k ++ '=' :: v) ++ '&' :: joinPairs (q :: ps) := by
      simp [joinPairs, List.append_assoc]
    rw [show parse_qsl (joinPairs ((k, v) :: q :: ps)) =
      ((splitAll '&' (joinPairs ((k, v) :: q :: ps))).filterMap fun nv =>
        if nv = [] then none
        else match splitOnFirst '=' nv with
          | (_, none) => none
          | (name, some value) =>
            if value = [] then none
            else some (unquote_plus name, unquote_plus value)) from rfl]
    rw [e, splitAll_append hamp, List.filterMap_cons]
    rw [parse_qsl_pair hk hv hvne]
    have ih := parse_qsl_joinPairs htail
    rw [show ((splitAll '&' (joinPairs (q :: ps))).filterMap fun nv =>
      if nv = [] then none
      else match splitOnFirst '=' nv with
        | (_, none) => none
        | (name, some value) =>
          if value = [] then none
          else some (unquote_plus name, unquote_plus value)) = parse_qsl (joinPairs (q :: ps)) from rfl,
      ih]

/-! ### Facts shared by the operation-level claims -/

theorem resolved_ne_empty {url vid : String} (h : get_youtube_video_id url = some vid) :
    url ≠ "" := by
  intro e
  rw [e, show get_youtube_video_id "" = none from by decide] at h
  exact Option.noConfusion h

theorem toList_asString (l : List Char) : l.asString.toList = l := by
  simp [List.asString, String.toList]

theorem joinPairs_not_mem {d : Char} (hd : goodIdChar d = false)
    (hde : ¬ d = '=') (hda : ¬ d = '&') :
    ∀ {ps : List (List Char × List Char)}, (∀ p ∈ ps, goodPair p) → d ∉ joinPairs ps
  | [], _ => List.not_mem_nil d
  | [(k, v)], h => by
    obtain ⟨hk, _, hv⟩ := h (k, v) (List.mem_singleton.mpr rfl)
    exact not_mem_pair hd hk hv hde
  | (k, v) :: q :: ps, h => by
    obtain ⟨hk, _, hv⟩ := h (k, v) (List.mem_cons_self _ _)
    have e : joinPairs ((k, v) :: q :: ps) =
        (k ++ '=' :: v) ++ '&' :: joinPairs (q :: ps) := by
      simp [joinPairs, List.append_assoc]
    rw [e]
    intro hm
    rcases List.mem_append.mp hm with hm | hm
    · exact not_mem_pair hd hk hv hde hm
    rcases List.mem_cons.mp hm with hm | hm
    · exact hda hm
    · exact joinPairs_not_mem hd hde hda
        (fun p hp => h p (List.mem_cons_of_mem _ hp)) hm

/-! ### The claims -/

/-- C1: for every well-formed video identifier `<id>`, extraction returns
exactly `<id>` from `https://youtu.be/<id>`,
`https://(www.)youtube.com/watch?v=<id>`,
`https://(www.)youtube.com/embed/<id>` and
`https://(www.)youtube.com/v/<id>`; for any URL whose hostname is not
`youtu.be`, `youtube.com` or `www.youtube.com` it returns `none`; and for
a `(www.)youtube.com` URL whose path matches none of the three shapes it
returns `none`. -/
theorem C1_extract_and_reject :
    (∀ id : String, goodId id →
      get_youtube_video_id ("https://youtu.be/" ++ id) = some id ∧
      get_youtube_video_id ("https://www.youtube.com/watch?v=" ++ id) = some id ∧
      get_youtube_video_id ("https://youtube.com/watch?v=" ++ id) = some id ∧
      get_youtube_video_id ("https://www.youtube.com/embed/" ++ id) = some id ∧
      get_youtube_video_id ("https://youtube.com/embed/" ++ id) = some id ∧
      get_youtube_video_id ("https://www.youtube.com/v/" ++ id) = some id ∧
      get_youtube_video_id ("https://youtube.com/v/" ++ id) = some id) ∧
    (∀ url : String,
      hostnameOf (urlsplit url.toList).netloc ∉
        [some "youtu.be".toList, some "youtube.com".toList, some "www.youtube.com".toList] →
      get_youtube_video_id url = none) ∧
    (∀ url : String,
      (hostnameOf (urlsplit url.toList).netloc = some "www.youtube.com".toList ∨
       hostnameOf (urlsplit url.toList).netloc = some "youtube.com".toList) →
      (urlsplit url.toList).path ≠ "/watch".toList →
      List.isPrefixOf "/embed/".toList (urlsplit url.toList).path = false →
      List.isPrefixOf "/v/".toList (urlsplit url.toList).path = false →
      get_youtube_video_id url = none) := by
  refine ⟨?_, ?_, ?_⟩
  · intro id hid
    obtain ⟨hne, hgood⟩ := hid
    have h1 : '#' ∉ id.toList := good_not_mem hgood (by decide)
    have h2 : '?' ∉ id.toList := good_not_mem hgood (by decide)
    have hq : '#' ∉ ('v' :: '=' :: id.toList) := by
      intro hm
      rcases List.mem_cons.mp hm with h | hm
      · exact absurd h (by decide)
      rcases List.mem_cons.mp hm with h | hm
      · exact absurd h (by decide)
      · exact h1 hm
    refine ⟨?_, ?_, ?_, ?_, ?_, ?_, ?_⟩
    · have e : ("https://youtu.be/" ++ id).toList =
          "https://".toList ++ "youtu.be".toList ++ '/' :: id.toList :=
        (toList_append _ id).trans rfl
      simp only [get_youtube_video_id]
      rw [e, getVideoIdL_youtu_be id.toList h1 h2]
      show some (List.asString id.toList) = some id
      rw [String.asString_toList]
    · have e : ("https://www.youtube.com/watch?v=" ++ id).toList =
          "https://".toList ++ "www.youtube.com".toList ++ '/' ::
            ("watch".toList ++ '?' :: ('v' :: '=' :: id.toList)) :=
        (toList_append _ id).trans rfl
      simp only [get_youtube_video_id]
      rw [e, getVideoIdL_watch _ _ (Or.inl (by decide)) (by decide) hq,
        qsFirst_v id.toList (toList_ne_nil hne) hgood]
      show some (List.asString id.toList) = some id
      rw [String.asString_toList]
    · have e : ("https://youtube.com/watch?v=" ++ id).toList =
          "https://".toList ++ "youtube.com".toList ++ '/' ::
            ("watch".toList ++ '?' :: ('v' :: '=' :: id.toList)) :=
        (toList_append _ id).trans rfl
      simp only [get_youtube_video_id]
      rw [e, getVideoIdL_watch _ _ (Or.inr (by decide)) (by decide) hq,
        qsFirst_v id.toList (toList_ne_nil hne) hgood]
      show some (List.asString id.toList) = some id
      rw [String.asString_toList]
    · have e : ("https://www.youtube.com/embed/" ++ id).toList =
          "https://".toList ++ "www.youtube.com".toList ++ '/' ::
            ("embed/".toList ++ id.toList) :=
        (toList_append _ id).trans rfl
      simp only [get_youtube_video_id]
      rw [e, getVideoIdL_embed _ _ (Or.inl (by decide)) (by decide) hgood]
      show some (List.asString id.toList) = some id
      rw [String.asString_toList]
    · have e : ("https://youtube.com/embed/" ++ id).toList =
          "https://".toList ++ "youtube.com".toList ++ '/' ::
            ("embed/".toList ++ id.toList) :=
        (toList_append _ id).trans rfl
      simp only [get_youtube_video_id]
      rw [e, getVideoIdL_embed _ _ (Or.inr (by decide)) (by decide) hgood]
      show some (List.asString id.toList) = some id
      rw [String.asString_toList]
    · have e : ("https://www.youtube.com/v/" ++ id).toList =
          "https://".toList ++ "www.youtube.com".toList ++ '/' ::
            ("v/".toList ++ id.toList) :=
        (toList_append _ id).trans rfl
      simp only [get_youtube_video_id]
      rw [e, getVideoIdL_v _ _ (Or.inl (by decide)) (by decide) hgood]
      show some (List.asString id.toList) = some id
      rw [String.asString_toList]
    · have e : ("https://youtube.com/v/" ++ id).toList =
          "https://".toList ++ "youtube.com".toList ++ '/' ::
            ("v/".toList ++ id.toList) :=
        (toList_append _ id).trans rfl
      simp only [get_youtube_video_id]
      rw [e, getVideoIdL_v _ _ (Or.inr (by decide)) (by decide) hgood]
      show some (List.asString id.toList) = some id
      rw [String.asString_toList]
  · intro url hnm
    simp only [get_youtube_video_id, getVideoIdL]
    rcases hh : hostnameOf (urlsplit url.toList).netloc with _ | host
    · simp
    · rw [hh] at hnm
      simp only [List.mem_cons, List.not_mem_nil, or_false, not_or] at hnm
      have g1 : ¬ host = ('y' :: 'o' :: 'u' :: 't' :: 'u' :: '.' :: 'b' :: 'e' :: []) :=
        fun e => hnm.1 (congrArg some (e.trans rfl))
      have g2 : ¬ host =
          ('y' :: 'o' :: 'u' :: 't' :: 'u' :: 'b' :: 'e' :: '.' :: 'c' :: 'o' :: 'm' :: []) :=
        fun e => hnm.2.1 (congrArg some (e.trans rfl))
      have g3 : ¬ host = ('w' :: 'w' :: 'w' :: '.' :: 'y' :: 'o' :: 'u' :: 't' :: 'u' :: 'b'
          :: 'e' :: '.' :: 'c' :: 'o' :: 'm' :: []) :=
        fun e => hnm.2.2 (congrArg some (e.trans rfl))
      simp [g1, g2, g3]
  · intro url hh hw he hv
    simp only [get_youtube_video_id, getVideoIdL]
    rcases hh with hh | hh <;>
    · simp only [hh]
      rw [if_neg (by decide), if_pos (by decide), if_neg hw, he, hv]
      simp

theorem C1_witness :
    (get_youtube_video_id "https://youtu.be/dQw4w9WgXcQ" = some "dQw4w9WgXcQ" ∧
      get_youtube_video_id "https://www.youtube.com/watch?v=dQw4w9WgXcQ" =
        some "dQw4w9WgXcQ" ∧
      get_youtube_video_id "https://youtube.com/watch?v=dQw4w9WgXcQ" = some "dQw4w9WgXcQ" ∧
      get_youtube_video_id "https://www.youtube.com/embed/dQw4w9WgXcQ" =
        some "dQw4w9WgXcQ" ∧
      get_youtube_video_id "https://youtube.com/embed/dQw4w9WgXcQ" = some "dQw4w9WgXcQ" ∧
      get_youtube_video_id "https://www.youtube.com/v/dQw4w9WgXcQ" = some "dQw4w9WgXcQ" ∧
      get_youtube_video_id "https://youtube.com/v/dQw4w9WgXcQ" = some "dQw4w9WgXcQ") ∧
    get_youtube_video_id "https://vimeo.com/123" = none ∧
    get_youtube_video_id "https://www.youtube.com/playlist?list=abc" = none := by
  obtain ⟨p1, p2, p3⟩ := C1_extract_and_reject
  exact ⟨p1 "dQw4w9WgXcQ" ⟨by decide, by decide⟩,
    p2 "https://vimeo.com/123" (by decide),
    p3 "https://www.youtube.com/playlist?list=abc" (Or.inl (by decide))
      (by decide) (by decide) (by decide)⟩

/-- C6: for a URL with hostname `youtube.com` or `www.youtube.com` and path
exactly `/watch`, extraction returns the value of query parameter `v` —
the first occurrence when `v` is repeated — and `none` when `v` is absent.
The query string is rendered from an arbitrary list of key-value pairs
(identifier-charset keys, non-empty identifier-charset values). -/
theorem C6_watch_query_parameter (host : String)
    (hhost : host = "www.youtube.com" ∨ host = "youtube.com")
    (ps : List (List Char × List Char)) (hps : ∀ p ∈ ps, goodPair p) :
    get_youtube_video_id (("https://".toList ++ host.toList ++ '/' ::
        ("watch".toList ++ '?' :: joinPairs ps)).asString) =
      ((ps.find? fun p => p.1 == "v".toList).map fun p => p.2.asString) := by
  have hq : '#' ∉ joinPairs ps := joinPairs_not_mem (by decide) (by decide) (by decide) hps
  have key : ∀ q : List Char,
      (qsFirst q "v".toList).map List.asString =
        ((parse_qsl q).find? fun p => p.1 == "v".toList).map fun p => p.2.asString := by
    intro q
    rw [qsFirst]
    cases (parse_qsl q).find? fun p => p.1 == "v".toList <;> simp
  rcases hhost with hh | hh <;> subst hh <;>
    simp only [get_youtube_video_id] <;> rw [toList_asString]
  · rw [getVideoIdL_watch _ _ (Or.inl (by decide)) (by decide) hq, key,
      parse_qsl_joinPairs hps]
  · rw [getVideoIdL_watch _ _ (Or.inr (by decide)) (by decide) hq, key,
      parse_qsl_joinPairs hps]

theorem C6_witness :
    get_youtube_video_id (("https://".toList ++ "www.youtube.com".toList ++ '/' ::
        ("watch".toList ++ '?' :: joinPairs
          [("a".toList, "1".toList), ("v".toList, "first".toList),
           ("v".toList, "second".toList)])).asString) = some "first" ∧
    get_youtube_video_id (("https://".toList ++ "youtube.com".toList ++ '/' ::
        ("watch".toList ++ '?' :: joinPairs [("list".toList, "abc".toList)])).asString) =
      none := by
  constructor
  · rw [C6_watch_query_parameter "www.youtube.com" (Or.inl rfl)
      [("a".toList, "1".toList), ("v".toList, "first".toList), ("v".toList, "second".toList)]
      (by decide)]
    decide
  · rw [C6_watch_query_parameter "youtube.com" (Or.inr rfl)
      [("list".toList, "abc".toList)] (by decide)]
    decide

/-- C7: for every URL whose hostname is `youtu.be`, extraction returns the
URL's parsed path with the leading `/` stripped — everything after that
slash unmodified (further `/` included; the query, cut by the URL parser
at the first `?`, is not part of the path). -/
theorem C7_youtu_be_path :
    (∀ url : String, hostnameOf (urlsplit url.toList).netloc = some "youtu.be".toList →
      get_youtube_video_id url = some ((urlsplit url.toList).path.drop 1).asString) ∧
    (∀ p : String, '#' ∉ p.toList → '?' ∉ p.toList →
      get_youtube_video_id ("https://youtu.be/" ++ p) = some p) := by
  constructor
  · intro url hh
    simp only [get_youtube_video_id, getVideoIdL]
    simp only [hh]
    simp
  · intro p h1 h2
    have e : ("https://youtu.be/" ++ p).toList =
        "https://".toList ++ "youtu.be".toList ++ '/' :: p.toList :=
      (toList_append _ p).trans rfl
    simp only [get_youtube_video_id]
    rw [e, getVideoIdL_youtu_be p.toList h1 h2]
    show some (List.asString p.toList) = some p
    rw [String.asString_toList]

theorem C7_witness :
    get_youtube_video_id "https://youtu.be/abc/def" = some "abc/def" ∧
    get_youtube_video_id "https://youtu.be/xyz?si=1" =
      some ((urlsplit "https://youtu.be/xyz?si=1".toList).path.drop 1).asString := by
  constructor
  · exact C7_youtu_be_path.2 "abc/def" (by decide) (by decide)
  · exact C7_youtu_be_path.1 "https://youtu.be/xyz?si=1" (by decide)

/-- C2: for every URL that resolves to a video identifier, the captions
operation returns the concatenation of all caption line texts, in source
order, joined with a single space; if the retrieved caption sequence is
empty it returns exactly the literal string "No captions found for video",
not an empty string. -/
theorem C2_captions_join_or_sentinel (url vid : String)
    (languages : Option (List String)) (lines : List CaptionLine)
    (hvid : get_youtube_video_id url = some vid) (hne : vid ≠ "") :
    (get_video_captions (fun _ _ => .ok lines) url languages).1 =
      .ok (if lines = [] then "No captions found for video"
           else String.intercalate " " (lines.map fun line => line.text)) := by
  have hurl := resolved_ne_empty hvid
  simp only [get_video_captions, if_neg hurl, hvid, if_neg hne]
  by_cases hl : lines = [] <;> simp [hl]

theorem C2_witness :
    (get_video_captions (fun _ _ => .ok [⟨0, "Hello"⟩, ⟨62, "world"⟩])
        "https://www.youtube.com/watch?v=dQw4w9WgXcQ" none).1 = .ok "Hello world" ∧
    (get_video_captions (fun _ _ => .ok []) "https://youtu.be/x" none).1 =
      .ok "No captions found for video" := by
  constructor
  · rw [C2_captions_join_or_sentinel "https://www.youtube.com/watch?v=dQw4w9WgXcQ"
      "dQw4w9WgXcQ" none [⟨0, "Hello"⟩, ⟨62, "world"⟩] (by decide) (by decide)]
    decide
  · rw [C2_captions_join_or_sentinel "https://youtu.be/x" "x" none [] (by decide) (by decide)]
    decide

/-- C3: for every URL that resolves to a video identifier, the timestamps
operation maps each caption line, in source order, to
`"<minutes>:<SS> - <text>"` where the start offset is truncated to whole
seconds, minutes is the (unpadded) quotient by 60 and seconds the
remainder zero-padded to width 2; an empty caption sequence yields an
empty sequence, not an error. -/
theorem C3_timestamps_format (url vid : String)
    (languages : Option (List String)) (lines : List CaptionLine)
    (hvid : get_youtube_video_id url = some vid) (hne : vid ≠ "") :
    (get_video_timestamps (fun _ _ => .ok lines) url languages).1 =
      .ok (lines.map fun line =>
        toString ((pyInt line.start).fdiv 60) ++ ":" ++
          pad2 ((pyInt line.start).fmod 60) ++ " - " ++ line.text) := by
  have hurl := resolved_ne_empty hvid
  simp only [get_video_timestamps, if_neg hurl, hvid, if_neg hne]
  simp [formatLine]

theorem C3_witness :
    (get_video_timestamps (fun _ _ => .ok [⟨65, "a"⟩, ⟨5, "b"⟩, ⟨125, "c"⟩])
        "https://youtu.be/dQw4w9WgXcQ" none).1 =
      .ok ["1:05 - a", "0:05 - b", "2:05 - c"] ∧
    (get_video_timestamps (fun _ _ => .ok []) "https://youtu.be/dQw4w9WgXcQ" none).1 =
      .ok ([] : List String) := by
  constructor
  · rw [C3_timestamps_format "https://youtu.be/dQw4w9WgXcQ" "dQw4w9WgXcQ" none
      [⟨65, "a"⟩, ⟨5, "b"⟩, ⟨125, "c"⟩] (by decide) (by decide)]
    decide
  · rw [C3_timestamps_format "https://youtu.be/dQw4w9WgXcQ" "dQw4w9WgXcQ" none []
      (by decide) (by decide)]
    decide

/-- C5: for every resolving URL, a failure of the transcript source or of
the metadata provider surfaces as a single 500 error whose detail is a
fixed prefix followed by the underlying cause's message verbatim,
independent of the failure sub-kind. -/
theorem C5_upstream_error_wrapped (url vid : String)
    (languages : Option (List String)) (msg : String)
    (hvid : get_youtube_video_id url = some vid) (hne : vid ≠ "") :
    (get_video_data (fun _ => .error msg) url).1 =
      .error ⟨500, "Error getting video data: " ++ msg⟩ ∧
    (get_video_captions (fun _ _ => .error msg) url languages).1 =
      .error ⟨500, "Error getting captions for video: " ++ msg⟩ ∧
    (get_video_timestamps (fun _ _ => .error msg) url languages).1 =
      .error ⟨500, "Error generating timestamps: " ++ msg⟩ := by
  have hurl := resolved_ne_empty hvid
  refine ⟨?_, ?_, ?_⟩ <;>
    simp only [get_video_data, get_video_captions, get_video_timestamps,
      if_neg hurl, hvid, if_neg hne]

theorem C5_witness :
    (get_video_data (fun _ => .error "HTTP Error 404: Not Found") "https://youtu.be/x").1 =
      .error ⟨500, "Error getting video data: HTTP Error 404: Not Found"⟩ ∧
    (get_video_captions (fun _ _ => .error "Transcripts are disabled for this video")
        "https://youtu.be/x" none).1 =
      .error ⟨500, "Error getting captions for video: Transcripts are disabled for this video"⟩ ∧
    (get_video_timestamps (fun _ _ => .error "no transcript available")
        "https://youtu.be/x" none).1 =
      .error ⟨500, "Error generating timestamps: no transcript available"⟩ := by
  refine ⟨?_, ?_, ?_⟩
  · exact (C5_upstream_error_wrapped "https://youtu.be/x" "x" none
      "HTTP Error 404: Not Found" (by decide) (by decide)).1
  · exact (C5_upstream_error_wrapped "https://youtu.be/x" "x" none
      "Transcripts are disabled for this video" (by decide) (by decide)).2.1
  · exact (C5_upstream_error_wrapped "https://youtu.be/x" "x" none
      "no transcript available" (by decide) (by decide)).2.2

/-- C8: with no language list the captions operation calls the transcript
source with the languages argument omitted (source default policy) while
the timestamps operation calls it with exactly `["en"]`; a non-empty
language list is passed through unchanged by both. -/
theorem C8_language_defaults (url vid : String) (api : TranscriptSource)
    (hvid : get_youtube_video_id url = some vid) (hne : vid ≠ "") :
    (get_video_captions api url none).2 = [(vid, none)] ∧
    (get_video_timestamps api url none).2 = [(vid, some ["en"])] ∧
    ∀ l ls, (get_video_captions api url (some (l :: ls))).2 = [(vid, some (l :: ls))] ∧
      (get_video_timestamps api url (some (l :: ls))).2 = [(vid, some (l :: ls))] := by
  have hurl := resolved_ne_empty hvid
  refine ⟨?_, ?_, fun l ls => ⟨?_, ?_⟩⟩
  · simp only [get_video_captions, if_neg hurl, hvid, if_neg hne]
    rcases hc : api vid none with e | cap <;> simp only [hc]
    by_cases hcap : cap = [] <;> simp [hcap]
  · simp only [get_video_timestamps, if_neg hurl, hvid, if_neg hne]
    rcases hc : api vid (some ["en"]) with e | cap <;> simp [hc]
  · simp only [get_video_captions, if_neg hurl, hvid, if_neg hne]
    rcases hc : api vid (some (l :: ls)) with e | cap <;> simp only [hc]
    by_cases hcap : cap = [] <;> simp [hcap]
  · simp only [get_video_timestamps, if_neg hurl, hvid, if_neg hne]
    rcases hc : api vid (some (l :: ls)) with e | cap <;> simp [hc]

theorem C8_witness :
    (get_video_captions (fun _ _ => .ok []) "https://youtu.be/x" none).2 = [("x", none)] ∧
    (get_video_timestamps (fun _ _ => .ok []) "https://youtu.be/x" none).2 =
      [("x", some ["en"])] ∧
    (get_video_captions (fun _ _ => .ok []) "https://youtu.be/x" (some ["de", "en"])).2 =
      [("x", some ["de", "en"])] ∧
    (get_video_timestamps (fun _ _ => .ok []) "https://youtu.be/x" (some ["de", "en"])).2 =
      [("x", some ["de", "en"])] := by
  have h := C8_language_defaults "https://youtu.be/x" "x" (fun _ _ => .ok [])
    (by decide) (by decide)
  exact ⟨h.1, h.2.1, (h.2.2 "de" ["en"]).1, (h.2.2 "de" ["en"]).2⟩

/-- C9: for every JSON object returned by the oEmbed provider, the metadata
operation succeeds with exactly the ten named fields, each bound to the
source object's value for that key, with `none` (not an error) for absent
keys. -/
theorem C9_metadata_projection (url vid : String) (obj : JObj)
    (hvid : get_youtube_video_id url = some vid) (hne : vid ≠ "") :
    (get_video_data (fun _ => .ok obj) url).1 =
      .ok (["title", "author_name", "author_url", "type", "height", "width",
            "version", "provider_name", "provider_url", "thumbnail_url"].map
            fun k => (k, jget obj k)) := by
  have hurl := resolved_ne_empty hvid
  simp only [get_video_data, if_neg hurl, hvid, if_neg hne]
  simp

theorem C9_witness :
    (get_video_data (fun _ => .ok [("title", .str "T"), ("height", .int 113)])
        "https://youtu.be/x").1 =
      .ok [("title", some (JVal.str "T")), ("author_name", none), ("author_url", none),
           ("type", none), ("height", some (JVal.int 113)), ("width", none),
           ("version", none), ("provider_name", none), ("provider_url", none),
           ("thumbnail_url", none)] := by
  rw [C9_metadata_projection "https://youtu.be/x" "x"
    [("title", .str "T"), ("height", .int 113)] (by decide) (by decide)]
  decide

/-- C4: an input URL that is empty or does not resolve to a (non-empty)
video identifier makes each of the three operations fail with a
client-side 400 error, and the log of outbound calls to the metadata
provider / transcript source is empty: the error precedes any network
call. -/
theorem C4_invalid_input_no_calls (url : String)
    (languages : Option (List String)) (api : TranscriptSource)
    (oembed : String → Except String JObj)
    (h : url = "" ∨ get_youtube_video_id url = none ∨ get_youtube_video_id url = some "") :
    ((get_video_data oembed url).2 = [] ∧
      ∃ d, (get_video_data oembed url).1 = .error ⟨400, d⟩) ∧
    ((get_video_captions api url languages).2 = [] ∧
      ∃ d, (get_video_captions api url languages).1 = .error ⟨400, d⟩) ∧
    ((get_video_timestamps api url languages).2 = [] ∧
      ∃ d, (get_video_timestamps api url languages).1 = .error ⟨400, d⟩) := by
  by_cases hu : url = ""
  · subst hu
    refine ⟨⟨?_, ⟨"No URL provided", ?_⟩⟩, ⟨?_, ⟨"No URL provided", ?_⟩⟩,
      ⟨?_, ⟨"No URL provided", ?_⟩⟩⟩ <;>
      simp [get_video_data, get_video_captions, get_video_timestamps]
  · have hi : get_youtube_video_id url = none ∨ get_youtube_video_id url = some "" := by
      rcases h with h | h | h
      · exact absurd h hu
      · exact Or.inl h
      · exact Or.inr h
    refine ⟨⟨?_, ⟨"Error getting video ID from URL", ?_⟩⟩,
      ⟨?_, ⟨"Error getting video ID from URL", ?_⟩⟩,
      ⟨?_, ⟨"Error getting video ID from URL", ?_⟩⟩⟩ <;>
      rcases hi with hi | hi <;>
      simp [get_video_data, get_video_captions, get_video_timestamps, hu, hi]

theorem C4_witness :
    (((get_video_data (fun _ => .error "net down") "").2 = [] ∧
      ∃ d, (get_video_data (fun _ => .error "net down") "").1 = .error ⟨400, d⟩) ∧
    ((get_video_captions (fun _ _ => .ok []) "" none).2 = [] ∧
      ∃ d, (get_video_captions (fun _ _ => .ok []) "" none).1 = .error ⟨400, d⟩) ∧
    ((get_video_timestamps (fun _ _ => .ok []) "" none).2 = [] ∧
      ∃ d, (get_video_timestamps (fun _ _ => .ok []) "" none).1 = .error ⟨400, d⟩)) ∧
    (((get_video_data (fun _ => .error "net down") "https://example.com/watch?v=x").2 = [] ∧
      ∃ d, (get_video_data (fun _ => .error "net down")
        "https://example.com/watch?v=x").1 = .error ⟨400, d⟩) ∧
    ((get_video_captions (fun _ _ => .ok []) "https://example.com/watch?v=x" none).2 = [] ∧
      ∃ d, (get_video_captions (fun _ _ => .ok [])
        "https://example.com/watch?v=x" none).1 = .error ⟨400, d⟩) ∧
    ((get_video_timestamps (fun _ _ => .ok []) "https://example.com/watch?v=x" none).2 = [] ∧
      ∃ d, (get_video_timestamps (fun _ _ => .ok [])
        "https://example.com/watch?v=x" none).1 = .error ⟨400, d⟩)) :=
  ⟨C4_invalid_input_no_calls "" none (fun _ _ => .ok []) (fun _ => .error "net down")
      (Or.inl rfl),
    C4_invalid_input_no_calls "https://example.com/watch?v=x" none (fun _ _ => .ok [])
      (fun _ => .error "net down") (Or.inr (Or.inl (by decide)))⟩

/-- C10: passing an empty language list behaves exactly like omitting the
list: the captions operation consults the transcript source with no
language preference, the timestamps operation with `["en"]`; the whole
results coincide. -/
theorem C10_empty_language_list (api : TranscriptSource) (url : String) :
    get_video_captions api url (some []) = get_video_captions api url none ∧
    get_video_timestamps api url (some []) = get_video_timestamps api url none :=
  ⟨rfl, rfl⟩

end YT
